import Mathlib

/-!
Verification development for the `supersmoother` repository.

The repository's visible source is the packaging layer: `setup_fast.py`
(top-level installer) and `supersmoother/setup.py` (subpackage build
configuration declaring the `_window_fast` native extension).  Those two
files are embedded directly.  The smoothing engine itself
(`_window_fast` and the Python smoother around it) is not present in the
source tree; the parts of it that the specification describes are
modelled from the specification text and marked as such.
-/

/- ## Embedding of `supersmoother/setup.py` -/

/-- A native extension declaration, as produced by
`Configuration.add_extension` in `supersmoother/setup.py`: the extension
name, C sources, include directories and linked libraries. -/
structure Extension where
  name : String
  sources : List String
  include_dirs : List String
  libraries : List String
deriving DecidableEq

/-- The fields of the `numpy.distutils` `Configuration` object that
`supersmoother/setup.py` populates: the package name passed to the
constructor, the constructor arguments, and the list of extensions
added with `add_extension`. -/
structure Configuration where
  package_name : String
  parent_package : String
  top_path : Option String
  ext_modules : List Extension
deriving DecidableEq

/-- The include path returned by `numpy.get_include()`.  It is an
external deterministic function of the installed numpy, so it is a
fixed string of the model; no claim depends on its value. -/
def numpy_get_include : String := "numpy/core/include"

/-- Embedding of `configuration` in `src/supersmoother/setup.py`.
The ambient `os.name` is passed explicitly.  The function builds a
`Configuration('supersmoother', parent_package, top_path)`, computes
`libraries = ['m']` exactly when `os.name == 'posix'`, and adds the one
extension `_window_fast` with sources `['_window_fast.c']`, include
directory `numpy.get_include()` and those libraries. -/
def configuration (os_name parent_package : String) (top_path : Option String) :
    Configuration :=
  let libraries : List String := if os_name = "posix" then ["m"] else []
  ⟨"supersmoother", parent_package, top_path,
    [⟨"_window_fast", ["_window_fast.c"], [numpy_get_include], libraries⟩]⟩

/- ## Embedding of the filesystem effect of `configuration` in `src/setup_fast.py` -/

/-- The effect of `configuration` in `src/setup_fast.py` on the set of
files in the current directory: `if os.path.exists('MANIFEST'):
os.remove('MANIFEST')`; nothing else in the function body creates,
removes or modifies a file (the remaining statements only build the
in-memory `Configuration` object and read the subpackage). -/
def setup_fast_configuration_fs (fs : Finset String) : Finset String :=
  if "MANIFEST" ∈ fs then fs.erase "MANIFEST" else fs

/- ## Window Statistics Engine, modelled from the spec

The `_window_fast` extension and the smoother around it are not in the
source tree; the following definitions model the Window Statistics
Engine of spec sections 4.1 and 9 over exact rationals. -/

/-- Modelled from the spec: one point of a Sample Series, an
`(x, y, weight)` triple. -/
structure Sample where
  x : ℚ
  y : ℚ
  w : ℚ
deriving DecidableEq

/-- Modelled from the spec (section 9): the regression sufficient
statistics carried across sequential index steps by the rolling
computation — window point count, plain sum of y, and weighted sums of
1, x, y, x² and x·y. -/
structure Stats where
  cnt : ℚ
  sy : ℚ
  sw : ℚ
  swx : ℚ
  swy : ℚ
  swxx : ℚ
  swxy : ℚ
deriving DecidableEq

/-- Modelled from the spec: the empty sufficient statistics. -/
def Stats.zero : Stats := ⟨0, 0, 0, 0, 0, 0, 0⟩

/-- Modelled from the spec: add one sample entering the window to the
sufficient statistics (the add-one half of the rolling update). -/
def Stats.insert (st : Stats) (s : Sample) : Stats :=
  ⟨st.cnt + 1, st.sy + s.y, st.sw + s.w, st.swx + s.w * s.x,
   st.swy + s.w * s.y, st.swxx + s.w * s.x * s.x, st.swxy + s.w * s.x * s.y⟩

/-- Modelled from the spec: remove one sample leaving the window from
the sufficient statistics (the remove-one half of the rolling update). -/
def Stats.remove (st : Stats) (s : Sample) : Stats :=
  ⟨st.cnt - 1, st.sy - s.y, st.sw - s.w, st.swx - s.w * s.x,
   st.swy - s.w * s.y, st.swxx - s.w * s.x * s.x, st.swxy - s.w * s.x * s.y⟩

/-- Modelled from the spec: the from-scratch sufficient statistics of a
whole window. -/
def statsOf (l : List Sample) : Stats := l.foldl Stats.insert Stats.zero

/-- Modelled from the spec: the denominator of the local
linear-regression slope, `Σw · Σwx² - (Σwx)²`; zero exactly in the
degenerate cases (all x equal in the window, or zero total weight). -/
def denom (st : Stats) : ℚ := st.sw * st.swxx - st.swx * st.swx

/-- Modelled from the spec (sections 4.1 and 7): the locally weighted
linear-regression estimate at abscissa `xi` from window sufficient
statistics.  Every division is guarded: an empty window yields 0, a
window of zero total weight falls back to the plain mean of y, a window
with degenerate regression denominator falls back to the weighted mean
of y, and otherwise the fitted value is `ȳ + slope · (xi - x̄)`. -/
def fitFromStats (st : Stats) (xi : ℚ) : ℚ :=
  if st.cnt = 0 then 0
  else if st.sw = 0 then st.sy / st.cnt
  else if denom st = 0 then st.swy / st.sw
  else
    let slope := (st.sw * st.swxy - st.swx * st.swy) / denom st
    (st.swy + slope * (st.sw * xi - st.swx)) / st.sw

/-- Modelled from the spec: the half-width of a span: a span of `s`
points reaches `s / 2` indices to each side of the target index. -/
def halfwidth (span : ℕ) : ℕ := span / 2

/-- Modelled from the spec: lower window index at target `i` (truncated
at the series start: the window shrinks at the boundary). -/
def wlo (h i : ℕ) : ℕ := i - h

/-- Modelled from the spec: upper window index at target `i` (truncated
at the series end: the window shrinks at the boundary). -/
def whi (n h i : ℕ) : ℕ := min (i + h) (n - 1)

/-- Modelled from the spec: the sample at index `i` (a zero sample out
of range; the engine only reads indices inside the series). -/
def sampleAt (data : List Sample) (i : ℕ) : Sample := data.getD i ⟨0, 0, 0⟩

/-- Modelled from the spec: the indices of the window centred at `i`,
shrunk at the series boundaries. -/
def windowIdx (n h i : ℕ) : List ℕ := List.range' (wlo h i) (whi n h i + 1 - wlo h i)

/-- Modelled from the spec: the window of samples nearest index `i`. -/
def window (data : List Sample) (h i : ℕ) : List Sample :=
  (windowIdx data.length h i).map (sampleAt data)

/-- Modelled from the spec: from-scratch fitted value at index `i`. -/
def fitAt (data : List Sample) (h i : ℕ) : ℚ :=
  fitFromStats (statsOf (window data h i)) (sampleAt data i).x

/-- Modelled from the spec: from-scratch residual at index `i`. -/
def residAt (data : List Sample) (h i : ℕ) : ℚ :=
  (sampleAt data i).y - fitAt data h i

/-- Modelled from the spec: the engine's fitted-value array, one entry
per series index, each recomputed from scratch (the reference path). -/
def smoothFits (data : List Sample) (span : ℕ) : List ℚ :=
  (List.range data.length).map (fitAt data (halfwidth span))

/-- Modelled from the spec: the engine's residual array (the reference
path). -/
def smoothResids (data : List Sample) (span : ℕ) : List ℚ :=
  (List.range data.length).map (residAt data (halfwidth span))

/-- Modelled from the spec: the engine entry point with the input
constraints of section 4.1: span at least 2 and at most the series
length, otherwise the `InsufficientDataError` outcome (`none`). -/
def smoothChecked (data : List Sample) (span : ℕ) :
    Option (List ℚ × List ℚ) :=
  if 2 ≤ span ∧ span ≤ data.length then
    some (smoothFits data span, smoothResids data span)
  else none

/-- Modelled from the spec (section 9): one step of the rolling
computation: as the window slides from target `i` to `i + 1`, add the
sample entering at the top (if the upper bound moved) and remove the
sample leaving at the bottom (if the lower bound moved), in O(1). -/
def rollStep (data : List Sample) (h i : ℕ) (st : Stats) : Stats :=
  let n := data.length
  let st1 := if whi n h i < whi n h (i + 1) then
    st.insert (sampleAt data (whi n h (i + 1))) else st
  if wlo h i < wlo h (i + 1) then st1.remove (sampleAt data (wlo h i)) else st1

/-- Modelled from the spec: the rolling loop: emit the fitted value at
the current index from the carried sufficient statistics, then slide
the window by one. -/
def rollAux (data : List Sample) (h : ℕ) : ℕ → ℕ → Stats → List ℚ
  | 0, _, _ => []
  | fuel + 1, i, st =>
    fitFromStats st (sampleAt data i).x ::
      rollAux data h fuel (i + 1) (rollStep data h i st)

/-- Modelled from the spec: the optimized incremental fitted-value
array: sufficient statistics are built once for the first window and
then only updated, never recomputed. -/
def rollingFits (data : List Sample) (span : ℕ) : List ℚ :=
  rollAux data (halfwidth span) data.length 0
    (statsOf (window data (halfwidth span) 0))

/-- Modelled from the spec: the residual array of the rolling path. -/
def rollingResids (data : List Sample) (span : ℕ) : List ℚ :=
  List.zipWith (fun s f => s.y - f) data (rollingFits data span)

/-- Division instrumented to detect a zero divisor: `none` exactly when
the divisor is zero. -/
def divChecked (a b : ℚ) : Option ℚ := if b = 0 then none else some (a / b)

/-- Modelled from the spec (section 7): `fitFromStats` with every
division instrumented by `divChecked`, so that a window estimate that
would evaluate a division by zero returns `none`. -/
def fitFromStatsChecked (st : Stats) (xi : ℚ) : Option ℚ :=
  if st.cnt = 0 then some 0
  else if st.sw = 0 then divChecked st.sy st.cnt
  else if denom st = 0 then divChecked st.swy st.sw
  else do
    let slope ← divChecked (st.sw * st.swxy - st.swx * st.swy) (denom st)
    divChecked (st.swy + slope * (st.sw * xi - st.swx)) st.sw

/- ## Span Selector, modelled from the spec (section 4.2) -/

/-- Modelled from the spec: the cross-validated residual score of a
candidate span at one point (the spec leaves the exact formula open;
the absolute residual is used). -/
def scoreAt (data : List Sample) (span i : ℕ) : ℚ :=
  |residAt data (halfwidth span) i|

/-- Modelled from the spec: keep the better of two candidate spans at
point `i`: strictly smaller score wins, and on a score tie the larger
(smoother) span is preferred. -/
def betterSpan (data : List Sample) (i best s : ℕ) : ℕ :=
  if scoreAt data s i < scoreAt data best i ∨
      (scoreAt data s i = scoreAt data best i ∧ best < s) then s else best

/-- Modelled from the spec: the span chosen at point `i` among the
candidates, the arg-min of the score with ties to the larger span. -/
def bestSpanAt (data : List Sample) (s0 : ℕ) (rest : List ℕ) (i : ℕ) : ℕ :=
  rest.foldl (betterSpan data i) s0

/-- Modelled from the spec: the Span Selector's fitted values: at each
point, the engine's fitted value under the span chosen there.  With no
candidate at all it degrades to the minimal fixed-span smoother; with a
single candidate no selection happens. -/
def selectorFits (data : List Sample) (spans : List ℕ) : List ℚ :=
  match spans with
  | [] => smoothFits data 0
  | s :: rest =>
    (List.range data.length).map
      (fun i => fitAt data (halfwidth (bestSpanAt data s rest i)) i)

/- ## Model State, modelled from the spec (sections 4.3 and 7) -/

/-- Modelled from the spec: the phases of the per-Model-State state
machine `Unfit -> Fitting -> Fitted -> (Stale on series mutation) ->
Unfit`. -/
inductive ModelPhase where
  | Unfit
  | Fitting
  | Fitted
  | Stale
deriving DecidableEq

/-- Modelled from the spec: the transition relation of the
per-Model-State state machine. -/
inductive PhaseStep : ModelPhase → ModelPhase → Prop where
  | startFit : PhaseStep ModelPhase.Unfit ModelPhase.Fitting
  | finishFit : PhaseStep ModelPhase.Fitting ModelPhase.Fitted
  | mutate : PhaseStep ModelPhase.Fitted ModelPhase.Stale
  | reset : PhaseStep ModelPhase.Stale ModelPhase.Unfit

/-- Modelled from the spec: the errors of section 7. -/
inductive SmError where
  | NotFittedError
  | InsufficientDataError
  | DomainError
deriving DecidableEq

/-- Modelled from the spec: a Model State: the phase of its state
machine, the Sample Series it is bound to, and its fitted values. -/
structure ModelState where
  phase : ModelPhase
  series : List Sample
  fitted : List ℚ

/-- Modelled from the spec: evaluation of the fitted curve at an
arbitrary query abscissa by linear interpolation between neighbouring
fitted points, clamped to the boundary values outside the training
domain. -/
def interpCurve : List (ℚ × ℚ) → ℚ → ℚ
  | [], _ => 0
  | [(_, y1)], _ => y1
  | (x1, y1) :: (x2, y2) :: rest, q =>
    if q ≤ x1 then y1
    else if q ≤ x2 then
      if x2 = x1 then y1 else y1 + (y2 - y1) * (q - x1) / (x2 - x1)
    else interpCurve ((x2, y2) :: rest) q

/-- Modelled from the spec: `predict` is permitted only in the `Fitted`
phase; in any other phase it raises `NotFittedError` immediately. -/
def predict (m : ModelState) (qxs : List ℚ) : Except SmError (List ℚ) :=
  match m.phase with
  | ModelPhase.Fitted =>
    Except.ok (qxs.map (interpCurve ((m.series.map Sample.x).zip m.fitted)))
  | _ => Except.error SmError.NotFittedError

/-- The from-scratch statistics of the window of `c` samples starting
at index `a` (proof-side view of `window`). -/
def windowS (data : List Sample) (a c : ℕ) : Stats :=
  statsOf ((List.range' a c).map (sampleAt data))

/- ## Sufficient-statistics algebra -/

/-- The order in which two samples enter the statistics is irrelevant. -/
theorem stats_insert_swap (st : Stats) (a b : Sample) :
    (st.insert a).insert b = (st.insert b).insert a := by
  simp only [Stats.insert, Stats.mk.injEq]
  refine ⟨?_, ?_, ?_, ?_, ?_, ?_, ?_⟩ <;> ring

/-- A sample folded into the initial statistics can be postponed. -/
theorem foldl_insert_init (l : List Sample) (st : Stats) (s : Sample) :
    l.foldl Stats.insert (st.insert s) = (l.foldl Stats.insert st).insert s := by
  induction l generalizing st with
  | nil => rfl
  | cons a t ih =>
    simp only [List.foldl_cons]
    rw [stats_insert_swap, ih]

/-- From-scratch statistics of a window with one more sample in front. -/
theorem statsOf_cons (s : Sample) (l : List Sample) :
    statsOf (s :: l) = (statsOf l).insert s := by
  simp only [statsOf, List.foldl_cons]
  exact foldl_insert_init l Stats.zero s

/-- From-scratch statistics of a window with one more sample at the end. -/
theorem statsOf_append_single (l : List Sample) (s : Sample) :
    statsOf (l ++ [s]) = (statsOf l).insert s := by
  simp only [statsOf, List.foldl_append, List.foldl_cons, List.foldl_nil]

/-- Removing a sample undoes adding it. -/
theorem insert_remove_cancel (st : Stats) (s : Sample) :
    (st.insert s).remove s = st := by
  cases st
  simp only [Stats.insert, Stats.remove, Stats.mk.injEq]
  refine ⟨?_, ?_, ?_, ?_, ?_, ?_, ?_⟩ <;> ring

/-- Peeling the bottom sample off a window. -/
theorem windowS_succ (data : List Sample) (a c : ℕ) :
    windowS data a (c + 1) = (windowS data (a + 1) c).insert (sampleAt data a) := by
  simp only [windowS, List.range'_succ, List.map_cons]
  exact statsOf_cons _ _

/-- Extending a window by one sample at the top. -/
theorem windowS_concat (data : List Sample) (a c : ℕ) :
    windowS data a (c + 1) = (windowS data a c).insert (sampleAt data (a + c)) := by
  simp only [windowS, List.range'_1_concat, List.map_append, List.map_cons,
    List.map_nil]
  exact statsOf_append_single _ _

/-- Sliding the window one index to the right updates the from-scratch
sufficient statistics exactly as `rollStep` does. -/
theorem rollStep_window (data : List Sample) (h i : ℕ) (hn : i + 1 < data.length) :
    rollStep data h i (statsOf (window data h i)) =
      statsOf (window data h (i + 1)) := by
  have hwin : ∀ j, statsOf (window data h j) =
      windowS data (wlo h j) (whi data.length h j + 1 - wlo h j) := fun _ => rfl
  have hlo : wlo h i ≤ wlo h (i + 1) ∧ wlo h (i + 1) ≤ wlo h i + 1 ∧
      wlo h i ≤ i := by
    simp only [wlo]; omega
  have hhi : whi data.length h i ≤ whi data.length h (i + 1) ∧
      whi data.length h (i + 1) ≤ whi data.length h i + 1 ∧
      i ≤ whi data.length h i := by
    simp only [whi]; omega
  obtain ⟨hl1, hl2, hl3⟩ := hlo
  obtain ⟨hh1, hh2, hh3⟩ := hhi
  rw [hwin i, hwin (i + 1)]
  by_cases hup : whi data.length h i < whi data.length h (i + 1) <;>
    by_cases hdn : wlo h i < wlo h (i + 1)
  · have ehi : whi data.length h (i + 1) = whi data.length h i + 1 := by omega
    have elo : wlo h (i + 1) = wlo h i + 1 := by omega
    simp only [rollStep, if_pos hup, if_pos hdn]
    rw [ehi, elo]
    have ec1 : whi data.length h i + 1 - wlo h i =
        (whi data.length h i - wlo h i) + 1 := by omega
    have ec2 : whi data.length h i + 1 + 1 - (wlo h i + 1) =
        (whi data.length h i - wlo h i) + 1 := by omega
    rw [ec1, ec2]
    have ei : whi data.length h i + 1 =
        wlo h i + ((whi data.length h i - wlo h i) + 1) := by omega
    rw [ei, ← windowS_concat data (wlo h i) ((whi data.length h i - wlo h i) + 1),
      windowS_succ data (wlo h i) ((whi data.length h i - wlo h i) + 1),
      insert_remove_cancel]
  · have ehi : whi data.length h (i + 1) = whi data.length h i + 1 := by omega
    have elo : wlo h (i + 1) = wlo h i := by omega
    simp only [rollStep, if_pos hup, if_neg hdn]
    rw [ehi, elo]
    have ec1 : whi data.length h i + 1 - wlo h i =
        (whi data.length h i - wlo h i) + 1 := by omega
    have ec2 : whi data.length h i + 1 + 1 - wlo h i =
        ((whi data.length h i - wlo h i) + 1) + 1 := by omega
    rw [ec1, ec2]
    have ei : whi data.length h i + 1 =
        wlo h i + ((whi data.length h i - wlo h i) + 1) := by omega
    rw [ei, ← windowS_concat data (wlo h i) ((whi data.length h i - wlo h i) + 1)]
  · have ehi : whi data.length h (i + 1) = whi data.length h i := by omega
    have elo : wlo h (i + 1) = wlo h i + 1 := by omega
    simp only [rollStep, if_neg hup, if_pos hdn]
    rw [ehi, elo]
    have ec1 : whi data.length h i + 1 - wlo h i =
        (whi data.length h i - wlo h i) + 1 := by omega
    have ec2 : whi data.length h i + 1 - (wlo h i + 1) =
        whi data.length h i - wlo h i := by omega
    rw [ec1, ec2, windowS_succ data (wlo h i) (whi data.length h i - wlo h i),
      insert_remove_cancel]
  · have ehi : whi data.length h (i + 1) = whi data.length h i := by omega
    have elo : wlo h (i + 1) = wlo h i := by omega
    simp only [rollStep, if_neg hup, if_neg hdn]
    rw [ehi, elo]

/-- The rolling loop reproduces the from-scratch fitted value at every
remaining index, given that the carried statistics are those of the
current window. -/
theorem rollAux_eq (data : List Sample) (h : ℕ) :
    ∀ (fuel i : ℕ) (st : Stats), i + fuel = data.length →
      (0 < fuel → st = statsOf (window data h i)) →
      rollAux data h fuel i st = (List.range' i fuel).map (fitAt data h) := by
  intro fuel
  induction fuel with
  | zero => intro i st _ _; rfl
  | succ f ih =>
    intro i st hlen hst
    have hst' := hst (Nat.succ_pos f)
    rw [hst']
    simp only [rollAux, List.range'_succ, List.map_cons]
    have htail : rollAux data h f (i + 1)
        (rollStep data h i (statsOf (window data h i))) =
        (List.range' (i + 1) f).map (fitAt data h) := by
      apply ih
      · omega
      · intro hf
        exact (rollStep_window data h i (by omega))
    rw [htail]
    rfl

/-- The count statistic is the window length. -/
theorem statsOf_cnt (l : List Sample) : (statsOf l).cnt = (l.length : ℚ) := by
  induction l with
  | nil => rfl
  | cons a t ih =>
    rw [statsOf_cons]
    simp only [Stats.insert, ih, List.length_cons]
    push_cast
    ring

/-- In a window whose abscissas are all equal, the weighted x-sums are
multiples of the weight sum. -/
theorem statsOf_const_x (c : ℚ) :
    ∀ l : List Sample, (∀ s ∈ l, s.x = c) →
      (statsOf l).swx = c * (statsOf l).sw ∧
      (statsOf l).swxx = c * c * (statsOf l).sw := by
  intro l
  induction l with
  | nil => intro _; exact ⟨by simp [statsOf, Stats.zero], by simp [statsOf, Stats.zero]⟩
  | cons a t ih =>
    intro hx
    have ha : a.x = c := hx a (List.mem_cons_self a t)
    have ht := ih (fun s hs => hx s (List.mem_cons_of_mem a hs))
    rw [statsOf_cons]
    simp only [Stats.insert]
    constructor
    · rw [ht.1, ha]; ring
    · rw [ht.2, ha]; ring

/-- In a window whose ordinates are all equal, every y-sum is a
multiple of the matching plain sum. -/
theorem statsOf_const_y (c : ℚ) :
    ∀ l : List Sample, (∀ s ∈ l, s.y = c) →
      (statsOf l).sy = c * (statsOf l).cnt ∧
      (statsOf l).swy = c * (statsOf l).sw ∧
      (statsOf l).swxy = c * (statsOf l).swx := by
  intro l
  induction l with
  | nil =>
    intro _
    refine ⟨?_, ?_, ?_⟩ <;> simp [statsOf, Stats.zero]
  | cons a t ih =>
    intro hy
    have ha : a.y = c := hy a (List.mem_cons_self a t)
    have ht := ih (fun s hs => hy s (List.mem_cons_of_mem a hs))
    rw [statsOf_cons]
    simp only [Stats.insert]
    refine ⟨?_, ?_, ?_⟩
    · rw [ht.1, ha]; ring
    · rw [ht.2.1, ha]; ring
    · rw [ht.2.2, ha]; ring

/-- A window with a nonzero weight sum is nonempty, so its count
statistic is nonzero. -/
theorem statsOf_cnt_ne_zero (l : List Sample) (hl : l ≠ []) :
    (statsOf l).cnt ≠ 0 := by
  rw [statsOf_cnt]
  have hlen : l.length ≠ 0 := fun he => hl (List.length_eq_zero.mp he)
  exact Nat.cast_ne_zero.mpr hlen

/-- On a constant-ordinate window the guarded local regression returns
that constant, whatever the weights and the target abscissa. -/
theorem fitFromStats_const_y (l : List Sample) (c xi : ℚ)
    (hy : ∀ s ∈ l, s.y = c) (hne : l ≠ []) :
    fitFromStats (statsOf l) xi = c := by
  have hs := statsOf_const_y c l hy
  have hcnt : (statsOf l).cnt ≠ 0 := statsOf_cnt_ne_zero l hne
  unfold fitFromStats
  rw [if_neg hcnt]
  by_cases h2 : (statsOf l).sw = 0
  · rw [if_pos h2, hs.1, mul_div_assoc, div_self hcnt, mul_one]
  · rw [if_neg h2]
    by_cases h3 : denom (statsOf l) = 0
    · rw [if_pos h3, hs.2.1, mul_div_assoc, div_self h2, mul_one]
    · rw [if_neg h3]
      have hnum : (statsOf l).sw * (statsOf l).swxy -
          (statsOf l).swx * (statsOf l).swy = 0 := by
        rw [hs.2.1, hs.2.2]; ring
      simp only [hnum, zero_div, zero_mul, add_zero]
      rw [hs.2.1, mul_div_assoc, div_self h2, mul_one]

/- ## Claims C1-C4 -/

/-- C1: every call of `configuration` in `src/supersmoother/setup.py`
returns a `Configuration` whose extension list is exactly one
extension, named `_window_fast`, built from the single source file
`_window_fast.c`. -/
theorem configuration_single_extension (os_name parent_package : String)
    (top_path : Option String) :
    ∃ ext : Extension,
      (configuration os_name parent_package top_path).ext_modules = [ext] ∧
      ext.name = "_window_fast" ∧
      ext.sources = ["_window_fast.c"] := by
  refine ⟨⟨"_window_fast", ["_window_fast.c"], [numpy_get_include],
    if os_name = "posix" then ["m"] else []⟩, ?_, rfl, rfl⟩
  rfl

/-- C2: in every call of `configuration` in `src/supersmoother/setup.py`,
the libraries list of the one `_window_fast` extension is `['m']` when
`os.name = 'posix'` and is empty otherwise: the math library is linked
exactly on POSIX platforms. -/
theorem configuration_libraries_posix (os_name parent_package : String)
    (top_path : Option String) :
    ((configuration os_name parent_package top_path).ext_modules.map
        Extension.libraries) =
      [if os_name = "posix" then ["m"] else []] := by
  by_cases h : os_name = "posix" <;> simp [configuration, h]

/-- C3: the filesystem effect of `configuration` in `src/setup_fast.py`:
after the call no file named `MANIFEST` exists; any other file exists
afterwards iff it existed before (nothing else is created or removed);
and when `MANIFEST` did not exist beforehand the filesystem is left
entirely unchanged. -/
theorem setup_fast_manifest_frame (fs : Finset String) :
    "MANIFEST" ∉ setup_fast_configuration_fs fs ∧
    (∀ f : String, f ≠ "MANIFEST" →
      (f ∈ setup_fast_configuration_fs fs ↔ f ∈ fs)) ∧
    ("MANIFEST" ∉ fs → setup_fast_configuration_fs fs = fs) := by
  unfold setup_fast_configuration_fs
  by_cases h : "MANIFEST" ∈ fs
  · simp only [if_pos h]
    exact ⟨Finset.not_mem_erase _ _,
      fun f hf => by simp [Finset.mem_erase, hf],
      fun hcontra => absurd h hcontra⟩
  · simp only [if_neg h]
    exact ⟨h, fun f _ => trivial, fun _ => trivial⟩

/-- C3 witness: on a directory holding only `setup.py`, the call leaves
the filesystem unchanged and `MANIFEST` absent. -/
theorem setup_fast_manifest_frame_witness :
    "MANIFEST" ∉ setup_fast_configuration_fs {"setup.py"} ∧
    setup_fast_configuration_fs {"setup.py"} = {"setup.py"} :=
  ⟨(setup_fast_manifest_frame {"setup.py"}).1,
   (setup_fast_manifest_frame {"setup.py"}).2.2 (by decide)⟩

/-- C4: `configuration` in `src/supersmoother/setup.py` is
deterministic: two calls seeing the same `os.name` and given the same
`parent_package` and `top_path` return identical `Configuration`
contents, with package name `supersmoother` and the single
`_window_fast` extension (same sources, include directories and
libraries). -/
theorem configuration_deterministic (os1 os2 pp1 pp2 : String)
    (tp1 tp2 : Option String) (hos : os1 = os2) (hpp : pp1 = pp2)
    (htp : tp1 = tp2) :
    configuration os1 pp1 tp1 = configuration os2 pp2 tp2 ∧
    (configuration os1 pp1 tp1).package_name = "supersmoother" ∧
    (configuration os1 pp1 tp1).ext_modules.length = 1 := by
  subst hos; subst hpp; subst htp
  exact ⟨rfl, rfl, rfl⟩

/-- C4 witness: two identical calls on a POSIX system agree. -/
theorem configuration_deterministic_witness :
    configuration "posix" "" none = configuration "posix" "" none ∧
    (configuration "posix" "" none).package_name = "supersmoother" ∧
    (configuration "posix" "" none).ext_modules.length = 1 :=
  configuration_deterministic "posix" "posix" "" "" none none rfl rfl rfl

/- ## Claims C5-C8 -/

/-- C5: for every Sample Series and span, the rolling (incremental
sufficient-statistics) computation produces, at every index, the same
fitted value and residual as a from-scratch recomputation of the local
weighted linear regression; over exact rationals the two paths are
interchangeable. -/
theorem rolling_matches_scratch (data : List Sample) (span : ℕ) :
    rollingFits data span = smoothFits data span ∧
    rollingResids data span = smoothResids data span := by
  have hfits : rollingFits data span = smoothFits data span := by
    unfold rollingFits smoothFits
    rw [List.range_eq_range' data.length]
    exact rollAux_eq data (halfwidth span) data.length 0 _ (by omega) (fun _ => rfl)
  refine ⟨hfits, ?_⟩
  unfold rollingResids smoothResids
  rw [hfits]
  apply List.ext_getElem
  · simp [smoothFits]
  · intro j h1 h2
    have hj : j < data.length := by
      simp only [List.length_map, List.length_range] at h2
      exact h2
    simp only [List.getElem_zipWith, smoothFits, List.getElem_map,
      List.getElem_range, residAt, sampleAt]
    rw [List.getD_eq_getElem data ⟨0, 0, 0⟩ hj]

/-- C6: for every span `s` with `2 ≤ s ≤ n` and Sample Series of length
`n`, the engine accepts the input and returns fitted-value and residual
arrays of length exactly `n`; boundary windows shrink instead of
failing. -/
theorem engine_output_length (data : List Sample) (span : ℕ)
    (hsp : 2 ≤ span) (hlen : span ≤ data.length) :
    ∃ fits resids : List ℚ,
      smoothChecked data span = some (fits, resids) ∧
      fits.length = data.length ∧ resids.length = data.length := by
  refine ⟨smoothFits data span, smoothResids data span, ?_, ?_, ?_⟩
  · unfold smoothChecked
    rw [if_pos ⟨hsp, hlen⟩]
  · simp [smoothFits]
  · simp [smoothResids]

/-- C6 witness: a two-point series with span 2 yields arrays of
length 2. -/
theorem engine_output_length_witness :
    ∃ fits resids : List ℚ,
      smoothChecked [⟨0, 1, 1⟩, ⟨1, 2, 1⟩] 2 = some (fits, resids) ∧
      fits.length = 2 ∧ resids.length = 2 :=
  engine_output_length [⟨0, 1, 1⟩, ⟨1, 2, 1⟩] 2 (by decide) (by decide)

/-- C7: the Span Selector run with the one-element candidate set `[s]`
produces exactly the fitted values of the engine at span `s`, and with
fewer than 2 candidates it degrades to a fixed-span smoother instead of
erroring. -/
theorem selector_single_span (data : List Sample) (s : ℕ) :
    selectorFits data [s] = smoothFits data s ∧
    (∀ spans : List ℕ, spans.length < 2 →
      ∃ t, selectorFits data spans = smoothFits data t) := by
  constructor
  · rfl
  · intro spans hsp
    cases spans with
    | nil => exact ⟨0, rfl⟩
    | cons a rest =>
      cases rest with
      | nil => exact ⟨a, rfl⟩
      | cons b r =>
        simp only [List.length_cons] at hsp
        omega

/-- C7 witness: on a concrete two-point series, the singleton candidate
set reproduces the fixed-span engine and the empty candidate set still
returns a fixed-span smoothing. -/
theorem selector_single_span_witness :
    selectorFits [⟨0, 1, 1⟩, ⟨1, 2, 1⟩] [2] = smoothFits [⟨0, 1, 1⟩, ⟨1, 2, 1⟩] 2 ∧
    (∃ t, selectorFits [⟨0, 1, 1⟩, ⟨1, 2, 1⟩] [] = smoothFits [⟨0, 1, 1⟩, ⟨1, 2, 1⟩] t) :=
  ⟨(selector_single_span [⟨0, 1, 1⟩, ⟨1, 2, 1⟩] 2).1,
   (selector_single_span [⟨0, 1, 1⟩, ⟨1, 2, 1⟩] 2).2 [] (by decide)⟩

/-- C8: `predict` succeeds exactly in the `Fitted` phase; in every
other phase of the state machine `Unfit -> Fitting -> Fitted -> Stale
-> Unfit` it raises `NotFittedError` immediately, and the machine's
transition relation is exactly that cycle. -/
theorem predict_requires_fitted (m : ModelState) (qxs : List ℚ) :
    (m.phase ≠ ModelPhase.Fitted →
      predict m qxs = Except.error SmError.NotFittedError) ∧
    ((∃ vs, predict m qxs = Except.ok vs) ↔ m.phase = ModelPhase.Fitted) ∧
    (∀ p q : ModelPhase, PhaseStep p q ↔
      ((p = ModelPhase.Unfit ∧ q = ModelPhase.Fitting) ∨
       (p = ModelPhase.Fitting ∧ q = ModelPhase.Fitted) ∨
       (p = ModelPhase.Fitted ∧ q = ModelPhase.Stale) ∨
       (p = ModelPhase.Stale ∧ q = ModelPhase.Unfit))) := by
  refine ⟨?_, ?_, ?_⟩
  · intro hne
    obtain ⟨p, sr, fv⟩ := m
    cases p <;> first
      | exact absurd rfl hne
      | rfl
  · obtain ⟨p, sr, fv⟩ := m
    cases p <;> simp [predict]
  · intro p q
    constructor
    · intro hstep
      cases hstep <;> simp
    · intro hcases
      rcases hcases with ⟨hp, hq⟩ | ⟨hp, hq⟩ | ⟨hp, hq⟩ | ⟨hp, hq⟩ <;>
        (subst hp; subst hq)
      · exact PhaseStep.startFit
      · exact PhaseStep.finishFit
      · exact PhaseStep.mutate
      · exact PhaseStep.reset

/-- C8 witness: on an unfit model, `predict` raises `NotFittedError`;
on a fitted model it succeeds. -/
theorem predict_requires_fitted_witness :
    predict ⟨ModelPhase.Unfit, [], []⟩ [] = Except.error SmError.NotFittedError ∧
    PhaseStep ModelPhase.Unfit ModelPhase.Fitting :=
  ⟨(predict_requires_fitted ⟨ModelPhase.Unfit, [], []⟩ []).1 (by decide),
   ((predict_requires_fitted ⟨ModelPhase.Unfit, [], []⟩ []).2.2
      ModelPhase.Unfit ModelPhase.Fitting).2 (Or.inl ⟨rfl, rfl⟩)⟩

/- ## Claims C9-C10 -/

/-- C9: no engine estimate ever evaluates a division by zero: the
division-instrumented estimator always succeeds and agrees with the
plain one; and on a window whose abscissas are all equal (the
degenerate denominator case) with nonzero total weight, the engine
returns the weighted mean of the window's y-values. -/
theorem no_division_by_zero (st : Stats) (xi : ℚ) (win : List Sample) (c : ℚ)
    (hx : ∀ s ∈ win, s.x = c) (hsw : (statsOf win).sw ≠ 0) :
    fitFromStatsChecked st xi = some (fitFromStats st xi) ∧
    fitFromStats (statsOf win) xi = (statsOf win).swy / (statsOf win).sw := by
  constructor
  · unfold fitFromStatsChecked fitFromStats divChecked
    by_cases h1 : st.cnt = 0
    · rw [if_pos h1, if_pos h1]
    · rw [if_neg h1, if_neg h1]
      by_cases h2 : st.sw = 0
      · rw [if_pos h2, if_pos h2, if_neg h1]
      · rw [if_neg h2, if_neg h2]
        by_cases h3 : denom st = 0
        · rw [if_pos h3, if_pos h3, if_neg h2, if_neg h1]
        · rw [if_neg h3, if_neg h3]
          simp only [Option.bind_eq_bind, Option.some_bind, if_neg h2]
          rw [if_neg h1, if_neg h3]
  · have hsum := statsOf_const_x c win hx
    have hd : denom (statsOf win) = 0 := by
      unfold denom
      rw [hsum.1, hsum.2]
      ring
    have hne : win ≠ [] := by
      intro he
      subst he
      exact hsw rfl
    have hcnt : (statsOf win).cnt ≠ 0 := statsOf_cnt_ne_zero win hne
    unfold fitFromStats
    rw [if_neg hcnt, if_neg hsw, if_pos hd]

/-- C9 witness: on the concrete window with both points at `x = 1`, the
engine returns the weighted mean of the y-values, and the instrumented
estimator succeeds. -/
theorem no_division_by_zero_witness :
    fitFromStatsChecked Stats.zero 1 = some (fitFromStats Stats.zero 1) ∧
    fitFromStats (statsOf [⟨1, 2, 1⟩, ⟨1, 4, 1⟩]) 1 =
      (statsOf [⟨1, 2, 1⟩, ⟨1, 4, 1⟩]).swy / (statsOf [⟨1, 2, 1⟩, ⟨1, 4, 1⟩]).sw :=
  no_division_by_zero Stats.zero 1 [⟨1, 2, 1⟩, ⟨1, 4, 1⟩] 1
    (by
      intro s hs
      simp only [List.mem_cons, List.not_mem_nil, or_false] at hs
      rcases hs with h | h <;> subst h <;> rfl)
    (by norm_num [statsOf, Stats.zero, Stats.insert])

/-- C10: on a constant Sample Series `y = c`, for every span and every
non-negative weighting, the smoother's fitted values equal `c` at every
point. -/
theorem constant_series_smooth (data : List Sample) (span : ℕ) (c : ℚ)
    (hy : ∀ s ∈ data, s.y = c) (_hw : ∀ s ∈ data, 0 ≤ s.w) :
    smoothFits data span = List.replicate data.length c := by
  rw [List.eq_replicate_iff]
  constructor
  · simp [smoothFits]
  · intro b hb
    rw [smoothFits, List.mem_map] at hb
    obtain ⟨i, hi, hfit⟩ := hb
    rw [List.mem_range] at hi
    rw [← hfit]
    unfold fitAt
    apply fitFromStats_const_y
    · intro s hs
      rw [window, List.mem_map] at hs
      obtain ⟨j, hj, hsj⟩ := hs
      rw [windowIdx, List.mem_range'_1] at hj
      have hwhi : whi data.length (halfwidth span) i ≤ data.length - 1 := by
        simp only [whi]
        omega
      have hjlt : j < data.length := by omega
      rw [← hsj, sampleAt, List.getD_eq_getElem data ⟨0, 0, 0⟩ hjlt]
      exact hy _ (List.getElem_mem hjlt)
    · have hlo : wlo (halfwidth span) i ≤ i := by
        simp only [wlo]
        omega
      have hhi : i ≤ whi data.length (halfwidth span) i := by
        simp only [whi]
        omega
      rw [window, windowIdx]
      intro hemp
      rw [List.map_eq_nil_iff, List.range'_eq_nil] at hemp
      omega

/-- C10 witness: a constant two-point series with `y = 5` smooths to
`[5, 5]`. -/
theorem constant_series_smooth_witness :
    smoothFits [⟨0, 5, 1⟩, ⟨1, 5, 2⟩] 3 = List.replicate 2 5 :=
  constant_series_smooth [⟨0, 5, 1⟩, ⟨1, 5, 2⟩] 3 5
    (by
      intro s hs
      simp only [List.mem_cons, List.not_mem_nil, or_false] at hs
      rcases hs with h | h <;> subst h <;> rfl)
    (by
      intro s hs
      simp only [List.mem_cons, List.not_mem_nil, or_false] at hs
      rcases hs with h | h <;> subst h <;> norm_num)
